import Mathlib

/-!
Verification of the ProcessUppercaseDoc pipeline.

This file gives a shallow embedding of the two Python modules
`ProcessDoc.py` (the batched, order-preserving text-normalization
pipeline built on the Bedrock API) and `TextToWord.py` (the
text-to-document converter), and settles the behavioural properties
claimed in the specification.

The remote Bedrock service is modelled as an oracle
`svc : String → Nat → CallOutcome` giving, for each chunk, the outcome of
the n-th `invoke_model` call made while processing that chunk (the n-th
call is the one executed with `retry_count = n`).  Concurrency within a
batch is modelled by an arbitrary completion order of the submitted
futures: a list of batch-local positions that is a permutation of
`List.range chunks.length`.  All file reading and writing is abstracted
by passing the file contents as arguments and returning the text that
would be written.
-/

namespace ProcessDoc

/-- Constant `RATE_LIMIT_DELAY = 1.0` from `ProcessDoc.py` (seconds). -/
def RATE_LIMIT_DELAY : Rat := 1

/-- Constant `MAX_RETRIES = 3` from `ProcessDoc.py`. -/
def MAX_RETRIES : Nat := 3

/-- Constant `BATCH_SIZE = 5` from `ProcessDoc.py`. -/
def BATCH_SIZE : Nat := 5

/-- Outcome of one `bedrock_runtime.invoke_model` call: a successful
response body text, a `botocore` `ClientError` carrying an error code, or
any other exception. -/
inductive CallOutcome where
  | success (text : String)
  | clientError (code : String)
  | otherError (msg : String)
deriving DecidableEq

/-- The exceptions that `process_chunk_with_bedrock` can raise:
`BedrockRateLimitError` ("Max retries exceeded for rate limiting"), a
re-raised `ClientError` with its error code, or a re-raised generic
exception. -/
inductive InvokeError where
  | rateLimitExhausted
  | aws (code : String)
  | other (msg : String)
deriving DecidableEq

deriving instance DecidableEq for Except

/-- Observable behaviour of one call to `process_chunk_with_bedrock`:
the returned text or raised exception, the number of `invoke_model`
calls performed, and the sequence of `time.sleep` delays (in seconds)
executed before each retry, in order. -/
structure InvokeTrace where
  result : Except InvokeError String
  calls : Nat
  sleeps : List Rat
deriving DecidableEq

/-- Embedding of `process_chunk_with_bedrock(chunk, retry_count)`.
On success it returns the response text.  On a `ClientError` with code
`ThrottlingException`: if `retry_count < MAX_RETRIES` it sleeps
`base * (2 ** retry_count)` seconds and recurses with `retry_count + 1`,
otherwise it raises `BedrockRateLimitError`.  Any other `ClientError`,
and any other exception, is re-raised immediately. -/
def process_chunk_with_bedrock (svc : String → Nat → CallOutcome) (base : Rat)
    (chunk : String) (retry_count : Nat) : InvokeTrace :=
  match svc chunk retry_count with
  | CallOutcome.success text =>
      { result := Except.ok text, calls := 1, sleeps := [] }
  | CallOutcome.clientError code =>
      if code = "ThrottlingException" then
        if h : retry_count < MAX_RETRIES then
          let delay := base * 2 ^ retry_count
          let rest := process_chunk_with_bedrock svc base chunk (retry_count + 1)
          { result := rest.result, calls := rest.calls + 1, sleeps := delay :: rest.sleeps }
        else
          { result := Except.error InvokeError.rateLimitExhausted, calls := 1, sleeps := [] }
      else
        { result := Except.error (InvokeError.aws code), calls := 1, sleeps := [] }
  | CallOutcome.otherError msg =>
      { result := Except.error (InvokeError.other msg), calls := 1, sleeps := [] }
termination_by MAX_RETRIES - retry_count
decreasing_by omega

/-- A service that throttles every call. -/
def alwaysThrottleSvc : String → Nat → CallOutcome :=
  fun _ _ => CallOutcome.clientError "ThrottlingException"

/-- Python `future.result()` inside `process_batch`: a successful call
contributes its text, any raised exception contributes `None`. -/
def resultToOption : Except InvokeError String → Option String
  | Except.ok t => some t
  | Except.error _ => none

/-- The outcome recorded for one chunk by `process_batch`. -/
def chunkOutcome (svc : String → Nat → CallOutcome) (chunk : String) : Option String :=
  resultToOption (process_chunk_with_bedrock svc RATE_LIMIT_DELAY chunk 0).result

/-- The key order used by `results.sort(key=lambda x: x[0])`. -/
def leIdx (a b : Nat × Option String) : Prop := a.1 ≤ b.1

/-- Strict version of `leIdx`. -/
def ltIdx (a b : Nat × Option String) : Prop := a.1 < b.1

instance : DecidableRel leIdx := fun a b => Nat.decLe a.1 b.1

instance : IsTotal (Nat × Option String) leIdx := ⟨fun a b => Nat.le_total a.1 b.1⟩

instance : IsTrans (Nat × Option String) leIdx := ⟨fun _ _ _ h1 h2 => Nat.le_trans h1 h2⟩

instance : IsAntisymm (Nat × Option String) ltIdx :=
  ⟨fun _ _ h1 h2 => absurd h2 (Nat.lt_asymm h1)⟩

/-- Embedding of `process_batch(chunks, start_index)`.  The futures
complete in the order given by `order` (a permutation of the batch-local
positions); each completion appends `(i + start_index, text-or-None)`;
the list is then sorted by original index. -/
def process_batch (svc : String → Nat → CallOutcome) (chunks : List String)
    (start_index : Nat) (order : List Nat) : List (Nat × Option String) :=
  let results := order.map (fun i => (i + start_index, chunkOutcome svc (chunks.getD i "")))
  List.insertionSort leIdx results

/-- Embedding of the loop header `for i in range(0, len(content), BATCH_SIZE)`:
the list of batch start indices `[0, BATCH_SIZE, 2*BATCH_SIZE, ...)` below `n`. -/
def batchStarts (i n : Nat) : List Nat :=
  if _ : i < n then i :: batchStarts (i + BATCH_SIZE) n else []
termination_by n - i
decreasing_by simp [BATCH_SIZE]; omega

/-- Embedding of `process_document`: process each batch (slice
`content[i:i+BATCH_SIZE]`) in order, concatenate the per-batch results,
and sort the whole list by original index. -/
def process_document (svc : String → Nat → CallOutcome) (content : List String)
    (orders : Nat → List Nat) : List (Nat × Option String) :=
  let all := (batchStarts 0 content.length).map
    (fun i => process_batch svc ((content.drop i).take BATCH_SIZE) i (orders i))
  List.insertionSort leIdx all.flatten

/-- The outcome the pipeline records for paragraph `j` of `content`. -/
def docOutcome (svc : String → Nat → CallOutcome) (content : List String) (j : Nat) :
    Option String :=
  chunkOutcome svc (content.getD j "")

/-- The ideal aggregate result list: one entry per paragraph, in index order. -/
def canonicalResults (svc : String → Nat → CallOutcome) (content : List String) :
    List (Nat × Option String) :=
  (List.range content.length).map (fun j => (j, docOutcome svc content j))

/-- Embedding of the output loop of `process_document`: for each result
in order, append `chunk + "\n\n"` when the chunk is not `None`, and
nothing otherwise. -/
def writeOutput (results : List (Nat × Option String)) : String :=
  results.foldl
    (fun acc p =>
      match p.2 with
      | some chunk => acc ++ chunk ++ "\n\n"
      | none => acc)
    ""

/-- The spec's description of the assembled output: each successfully
normalized text followed by a blank-line separator, concatenated in
order. -/
def specAssemble (texts : List String) : String :=
  texts.foldr (fun t acc => t ++ "\n\n" ++ acc) ""

/-- Result of `process_single_paragraph`: either the `ValueError` carrying
the valid bounds and its message, or the trace of the one invoker call. -/
inductive SingleResult where
  | rangeError (low high : Nat) (msg : String)
  | processed (trace : InvokeTrace)
deriving DecidableEq

/-- The `ValueError` message raised for an out-of-range paragraph number. -/
def rangeErrorMessage (n : Nat) : String :=
  "Invalid paragraph number. Document has " ++ toString n ++
    " paragraphs. Please provide a number between 1 and " ++ toString n ++ "."

/-- Embedding of `process_single_paragraph(file_path, paragraph_number)`
after the document has been read into `content`: converts the 1-based
number to a 0-based index, validates it, and on success calls
`process_chunk_with_bedrock` on that single paragraph. -/
def process_single_paragraph (svc : String → Nat → CallOutcome) (content : List String)
    (paragraph_number : Int) : SingleResult :=
  let index : Int := paragraph_number - 1
  if index < 0 ∨ (content.length : Int) ≤ index then
    SingleResult.rangeError 1 content.length (rangeErrorMessage content.length)
  else
    SingleResult.processed
      (process_chunk_with_bedrock svc RATE_LIMIT_DELAY (content.getD index.toNat "") 0)


/-- A demonstration service used to instantiate the pipeline theorems:
one chunk always throttles, one fails outright, the rest succeed. -/
def demoSvc : String → Nat → CallOutcome := fun chunk _ =>
  if chunk = "beta" then CallOutcome.clientError "ThrottlingException"
  else if chunk = "gamma" then CallOutcome.clientError "ValidationException"
  else CallOutcome.success (chunk ++ "!")

/-- A 7-paragraph demonstration document (two batches: 5 + 2 units). -/
def demoContent : List String := ["alpha", "beta", "gamma", "delta", "epsilon", "zeta", "eta"]

/-- Out-of-order completion orders for the two demonstration batches. -/
def demoOrders : Nat → List Nat := fun i => if i = 0 then [2, 0, 4, 1, 3] else [1, 0]

/-- A service that always fails with a non-throttling `ClientError`. -/
def validationSvc : String → Nat → CallOutcome :=
  fun _ _ => CallOutcome.clientError "ValidationException"

end ProcessDoc

namespace TextToWord

/-- Python `str.isspace`-style whitespace set used by `str.strip()` and
`str.split()` for ASCII text. -/
def pyIsSpace (c : Char) : Bool :=
  c = ' ' || c = '\t' || c = '\n' || c = '\r' || c = '\x0b' || c = '\x0c'

/-- Python `content.split('\n\n')`: split on each non-overlapping
occurrence of two consecutive newlines, leftmost first. -/
def splitDoubleNewline : List Char → List (List Char)
  | [] => [[]]
  | '\n' :: '\n' :: rest => [] :: splitDoubleNewline rest
  | c :: rest =>
      match splitDoubleNewline rest with
      | [] => [[c]]
      | seg :: segs => (c :: seg) :: segs

/-- Python `p.strip()`: remove leading and trailing whitespace. -/
def pyStrip (l : List Char) : List Char :=
  ((l.dropWhile pyIsSpace).reverse.dropWhile pyIsSpace).reverse

/-- Split on every character satisfying `p`, keeping empty segments
(the building block of Python `str.split()` with no argument). -/
def splitOnPred (p : Char → Bool) : List Char → List (List Char)
  | [] => [[]]
  | c :: rest =>
      if p c then [] :: splitOnPred p rest
      else
        match splitOnPred p rest with
        | [] => [[c]]
        | seg :: segs => (c :: seg) :: segs

/-- Python `para_text.split()`: the maximal non-whitespace runs. -/
def pyWords (l : List Char) : List (List Char) :=
  (splitOnPred pyIsSpace l).filter (fun w => w ≠ [])

/-- Python `para_text.endswith('.')`. -/
def endsWithDot (l : List Char) : Bool :=
  match l.getLast? with
  | some c => c = '.'
  | none => false

/-- Index of the last occurrence of `c` in `l`, or `-1` (Python `str.rfind`). -/
def rfindChar (l : List Char) (c : Char) : Int :=
  match l.reverse.findIdx? (fun x => x = c) with
  | some j => (l.length : Int) - 1 - j
  | none => -1

/-- Embedding of `os.path.splitext` (posix): split off the extension
beginning at the last dot that lies after the last path separator,
unless the basename up to that dot consists only of dots. -/
def pySplitext (p : String) : String × String :=
  let l := p.toList
  let sepIndex := rfindChar l '/'
  let dotIndex := rfindChar l '.'
  if sepIndex < dotIndex then
    let start := (sepIndex + 1).toNat
    let d := dotIndex.toNat
    if ((l.take d).drop start).any (fun ch => ch ≠ '.') then
      (String.mk (l.take d), String.mk (l.drop d))
    else
      (p, "")
  else
    (p, "")

/-- Embedding of `os.path.basename` (posix). -/
def pyBasename (p : String) : String :=
  String.mk (p.toList.drop (rfindChar p.toList '/' + 1).toNat)

/-- The formatting `create_word_document` applies to one paragraph:
10pt space after and 1.15 line spacing always; bold and 12pt space
before exactly when the paragraph has at most 10 words and does not end
with a period. -/
structure ParaFormat where
  text : List Char
  bold : Bool
  line_spacing : Rat
  space_after_pt : Rat
  space_before_pt : Option Rat
deriving DecidableEq

/-- One paragraph as `create_word_document` renders it. -/
def formatParagraph (para_text : List Char) : ParaFormat :=
  let isHeading := decide ((pyWords para_text).length ≤ 10) && ! endsWithDot para_text
  { text := para_text
    bold := isHeading
    line_spacing := 1.15
    space_after_pt := 10
    space_before_pt := if isHeading then some 12 else none }

/-- The document `create_word_document` produces: title, Normal style,
formatted paragraphs, and 1-inch margins on all four sides. -/
structure WordDoc where
  title : String
  font_name : String
  font_size_pt : Rat
  paragraphs : List ParaFormat
  top_margin_in : Rat
  bottom_margin_in : Rat
  left_margin_in : Rat
  right_margin_in : Rat
deriving DecidableEq

/-- Embedding of `create_word_document(text_file, output_file)` once the
input file has been read into `content`: returns the path the document
is saved to and the document itself.  The paragraphs are the stripped
segments of `content` split on blank lines, with empty segments
dropped. -/
def create_word_document (text_file : String) (output_file : Option String)
    (content : String) : String × WordDoc :=
  let out :=
    match output_file with
    | none => (pySplitext text_file).1 ++ ".docx"
    | some o => o
  let paragraphs := ((splitDoubleNewline content.toList).map pyStrip).filter (fun p => p ≠ [])
  (out,
    { title := pyBasename text_file
      font_name := "Calibri"
      font_size_pt := 11
      paragraphs := paragraphs.map formatParagraph
      top_margin_in := 1
      bottom_margin_in := 1
      left_margin_in := 1
      right_margin_in := 1 })

end TextToWord

namespace ProcessDoc

theorem throttle_trace (svc : String → Nat → CallOutcome) (base : Rat) (chunk : String)
    (h : ∀ k, svc chunk k = CallOutcome.clientError "ThrottlingException") :
    process_chunk_with_bedrock svc base chunk 0 =
      { result := Except.error InvokeError.rateLimitExhausted, calls := 4,
        sleeps := [base * 2 ^ 0, base * 2 ^ 1, base * 2 ^ 2] } := by
  simp [process_chunk_with_bedrock, h, MAX_RETRIES]

theorem sleeps_powers_bounded (svc : String → Nat → CallOutcome) (base : Rat) (chunk : String) :
    ∀ d r, MAX_RETRIES - r < d →
      ∃ n, n ≤ MAX_RETRIES - r ∧
        (process_chunk_with_bedrock svc base chunk r).sleeps =
          (List.range n).map (fun j => base * 2 ^ (r + j)) := by
  intro d
  induction d with
  | zero => omega
  | succ d ih =>
      intro r hr
      rcases hsvc : svc chunk r with text | code | msg
      · exact ⟨0, by omega, by simp [process_chunk_with_bedrock, hsvc]⟩
      · by_cases hcode : code = "ThrottlingException"
        · subst hcode
          by_cases hlt : r < MAX_RETRIES
          · obtain ⟨n, hb, hn⟩ := ih (r + 1) (by omega)
            refine ⟨n + 1, by omega, ?_⟩
            rw [process_chunk_with_bedrock]
            simp [hsvc, hlt, hn, List.range_succ_eq_map, List.map_map]
            intro a _
            left
            omega
          · exact ⟨0, by omega, by rw [process_chunk_with_bedrock]; simp [hsvc, hlt]⟩
        · exact ⟨0, by omega, by rw [process_chunk_with_bedrock]; simp [hsvc, hcode]⟩
      · exact ⟨0, by omega, by simp [process_chunk_with_bedrock, hsvc]⟩

theorem batch_slices_cover : ∀ d i (content : List String), content.length - i ≤ d →
    ((batchStarts i content.length).map (fun s => (content.drop s).take BATCH_SIZE)).flatten
      = content.drop i := by
  intro d
  induction d with
  | zero =>
      intro i content h
      rw [batchStarts]
      have hin : ¬ i < content.length := by omega
      have hd : content.drop i = [] := List.drop_eq_nil_of_le (by omega)
      simp [hin, hd]
  | succ d ih =>
      intro i content h
      have hB : BATCH_SIZE = 5 := rfl
      rw [batchStarts]
      by_cases hin : i < content.length
      · have hrec := ih (i + BATCH_SIZE) content (by omega)
        simp only [hin, dif_pos, List.map_cons, List.flatten_cons, hrec]
        rw [show content.drop (i + BATCH_SIZE) = (content.drop i).drop BATCH_SIZE by
          rw [List.drop_drop]]
        exact List.take_append_drop BATCH_SIZE (content.drop i)
      · have hd : content.drop i = [] := List.drop_eq_nil_of_le (by omega)
        simp [hin, hd]

theorem nonthrottle_trace (svc : String → Nat → CallOutcome) (base : Rat) (chunk : String)
    (code : String) (h : svc chunk 0 = CallOutcome.clientError code)
    (hc : code ≠ "ThrottlingException") :
    process_chunk_with_bedrock svc base chunk 0 =
      { result := Except.error (InvokeError.aws code), calls := 1, sleeps := [] } := by
  rw [process_chunk_with_bedrock]
  simp [h, hc]

theorem insertionSort_eq_of_perm {l c : List (Nat × Option String)} (hp : l.Perm c)
    (hc : List.Pairwise ltIdx c) : List.insertionSort leIdx l = c := by
  have hs : (List.insertionSort leIdx l).Perm c := (List.perm_insertionSort leIdx l).trans hp
  have hsort : List.Sorted leIdx (List.insertionSort leIdx l) := List.sorted_insertionSort leIdx l
  have hne_c : List.Pairwise (fun a b : Nat × Option String => a.1 ≠ b.1) c :=
    hc.imp (fun h => Nat.ne_of_lt h)
  have hne_s : List.Pairwise (fun a b : Nat × Option String => a.1 ≠ b.1)
      (List.insertionSort leIdx l) :=
    (List.Perm.pairwise_iff (fun h => h.symm) hs).mpr hne_c
  have hlt_s : List.Pairwise ltIdx (List.insertionSort leIdx l) :=
    (hsort.and hne_s).imp (fun h => Nat.lt_of_le_of_ne h.1 h.2)
  exact List.eq_of_perm_of_sorted hs hlt_s hc

theorem canonical_pairwise (f : Nat → Nat × Option String) (hf : ∀ j, (f j).1 = j) (n : Nat) :
    List.Pairwise ltIdx ((List.range n).map f) := by
  refine List.pairwise_map.mpr ?_
  exact (List.pairwise_lt_range n).imp (fun h => by simpa [ltIdx, hf] using h)

theorem process_batch_eq (svc : String → Nat → CallOutcome) (chunks : List String)
    (start_index : Nat) (order : List Nat) (h : order.Perm (List.range chunks.length)) :
    process_batch svc chunks start_index order =
      (List.range chunks.length).map
        (fun k => (k + start_index, chunkOutcome svc (chunks.getD k ""))) := by
  apply insertionSort_eq_of_perm
  · exact h.map _
  · refine List.pairwise_map.mpr ?_
    exact (List.pairwise_lt_range _).imp
      (fun h => by simp only [ltIdx]; exact Nat.add_lt_add_right h start_index)

theorem batchStarts_tile : ∀ d i n, n - i ≤ d →
    ((batchStarts i n).map (fun s => List.range' s (min BATCH_SIZE (n - s)))).flatten
      = List.range' i (n - i) := by
  intro d
  induction d with
  | zero =>
      intro i n h
      rw [batchStarts]
      have hin : ¬ i < n := by omega
      have h0 : n - i = 0 := by omega
      simp [hin, h0]
  | succ d ih =>
      intro i n h
      have hB : BATCH_SIZE = 5 := rfl
      rw [batchStarts]
      by_cases hin : i < n
      · have hrec := ih (i + BATCH_SIZE) n (by omega)
        simp only [hin, dif_pos, List.map_cons, List.flatten_cons, hrec]
        have happ := List.range'_append i (min BATCH_SIZE (n - i)) (n - (i + BATCH_SIZE)) 1
        rw [Nat.one_mul] at happ
        rcases Nat.lt_or_ge (n - i) BATCH_SIZE with hs | hs
        · have h1 : n - (i + BATCH_SIZE) = 0 := by omega
          have h2 : min BATCH_SIZE (n - i) = n - i := by omega
          rw [h1, h2]
          simp
        · have h2 : min BATCH_SIZE (n - i) = BATCH_SIZE := by omega
          rw [h2] at happ ⊢
          rw [happ]
          congr 1
          omega
      · have hin0 : ¬ i < n := hin
        have h0 : n - i = 0 := by omega
        simp [hin0, h0]

theorem process_document_eq_canonical (svc : String → Nat → CallOutcome)
    (content : List String) (orders : Nat → List Nat)
    (h : ∀ i ∈ batchStarts 0 content.length,
        (orders i).Perm (List.range (min BATCH_SIZE (content.length - i)))) :
    process_document svc content orders = canonicalResults svc content := by
  have hgetD : ∀ i k, k < min BATCH_SIZE (content.length - i) →
      ((content.drop i).take BATCH_SIZE).getD k "" = content.getD (i + k) "" := by
    intro i k hk
    rw [List.getD_eq_getElem?_getD, List.getD_eq_getElem?_getD, List.getElem?_take,
      if_pos (by omega), List.getElem?_drop]
  have hlen : ∀ i, ((content.drop i).take BATCH_SIZE).length
      = min BATCH_SIZE (content.length - i) := by
    intro i
    simp [List.length_take, List.length_drop]
  have hbatch : ∀ i ∈ batchStarts 0 content.length,
      process_batch svc ((content.drop i).take BATCH_SIZE) i (orders i)
        = (List.range' i (min BATCH_SIZE (content.length - i))).map
            (fun j => (j, docOutcome svc content j)) := by
    intro i hi
    rw [process_batch_eq svc _ i (orders i) (by rw [hlen]; exact h i hi), hlen]
    rw [List.range'_eq_map_range, List.map_map]
    refine List.map_congr_left ?_
    intro k hk
    have hk' : k < min BATCH_SIZE (content.length - i) := List.mem_range.mp hk
    simp only [Function.comp_apply]
    rw [Nat.add_comm k i, hgetD i k hk']
    rfl
  simp only [process_document]
  rw [List.map_congr_left hbatch]
  have hcomp : (fun i => (List.range' i (min BATCH_SIZE (content.length - i))).map
        (fun j => (j, docOutcome svc content j)))
      = (List.map (fun j => (j, docOutcome svc content j)) ∘
          fun s => List.range' s (min BATCH_SIZE (content.length - s))) := rfl
  rw [hcomp, ← List.map_map, ← List.map_flatten,
    batchStarts_tile content.length 0 content.length (by omega), Nat.sub_zero,
    ← List.range_eq_range']
  exact insertionSort_eq_of_perm (List.Perm.refl _)
    (canonical_pairwise _ (fun j => rfl) content.length)

theorem writeOutput_aux (l : List (Nat × Option String)) : ∀ acc : String,
    l.foldl
      (fun acc p =>
        match p.2 with
        | some chunk => acc ++ chunk ++ "\n\n"
        | none => acc)
      acc
    = acc ++ specAssemble (l.filterMap (fun p => p.2)) := by
  induction l with
  | nil => intro acc; simp [specAssemble]
  | cons p l ih =>
      intro acc
      rw [List.foldl_cons, List.filterMap_cons]
      cases hp : p.2 with
      | none =>
          simp only [hp]
          exact ih acc
      | some t =>
          simp only [hp]
          rw [ih (acc ++ t ++ "\n\n")]
          simp [specAssemble, String.append_assoc]

theorem writeOutput_eq (l : List (Nat × Option String)) :
    writeOutput l = specAssemble (l.filterMap (fun p => p.2)) := by
  simpa using writeOutput_aux l ""

theorem demo_orders_ok : ∀ i ∈ batchStarts 0 demoContent.length,
    (demoOrders i).Perm (List.range (min BATCH_SIZE (demoContent.length - i))) := by
  have hlen : demoContent.length = 7 := rfl
  rw [hlen]
  have hbs : batchStarts 0 7 = [0, 5] := by
    rw [batchStarts]
    rw [batchStarts]
    rw [batchStarts]
    norm_num [BATCH_SIZE]
  rw [hbs]
  intro i hi
  rcases List.mem_cons.mp hi with rfl | hi
  · decide
  · rcases List.mem_cons.mp hi with rfl | hi
    · decide
    · cases hi

/-- Claim C1: every run of whole-document processing produces an
aggregate result set with exactly one entry per input paragraph, the
original indices `0 .. N-1` each appearing exactly once. -/
theorem aggregate_result_set_complete (svc : String → Nat → CallOutcome)
    (content : List String) (orders : Nat → List Nat)
    (h : ∀ i ∈ batchStarts 0 content.length,
        (orders i).Perm (List.range (min BATCH_SIZE (content.length - i)))) :
    (process_document svc content orders).length = content.length ∧
    (process_document svc content orders).map Prod.fst = List.range content.length := by
  rw [process_document_eq_canonical svc content orders h, canonicalResults]
  refine ⟨by simp, ?_⟩
  rw [List.map_map]
  have hfun : (Prod.fst ∘ fun j => (j, docOutcome svc content j)) = id := rfl
  rw [hfun, List.map_id]

theorem aggregate_result_set_complete_witness :
    (process_document demoSvc demoContent demoOrders).length = demoContent.length ∧
    (process_document demoSvc demoContent demoOrders).map Prod.fst
      = List.range demoContent.length :=
  aggregate_result_set_complete demoSvc demoContent demoOrders demo_orders_ok

/-- Claim C2: whatever the completion order within each batch, the final
assembled list is strictly ascending in original index (hence has no
duplicates), and each entry carries exactly the outcome computed for its
own paragraph. -/
theorem assembled_output_sorted (svc : String → Nat → CallOutcome)
    (content : List String) (orders : Nat → List Nat)
    (h : ∀ i ∈ batchStarts 0 content.length,
        (orders i).Perm (List.range (min BATCH_SIZE (content.length - i)))) :
    List.Pairwise ltIdx (process_document svc content orders) ∧
    ∀ p ∈ process_document svc content orders, p.2 = docOutcome svc content p.1 := by
  rw [process_document_eq_canonical svc content orders h, canonicalResults]
  constructor
  · exact canonical_pairwise _ (fun j => rfl) content.length
  · intro p hp
    obtain ⟨j, hj, rfl⟩ := List.mem_map.mp hp
    rfl

theorem assembled_output_sorted_witness :
    List.Pairwise ltIdx (process_document demoSvc demoContent demoOrders) ∧
    ∀ p ∈ process_document demoSvc demoContent demoOrders,
      p.2 = docOutcome demoSvc demoContent p.1 :=
  assembled_output_sorted demoSvc demoContent demoOrders demo_orders_ok

/-- Claim C3 (counterexample): with a service that throttles every call,
`process_chunk_with_bedrock` performs 4 service invocations in total
(the initial attempt plus `MAX_RETRIES = 3` retries), not 3, before
giving up. -/
theorem throttle_attempt_count_cx :
    (process_chunk_with_bedrock alwaysThrottleSvc RATE_LIMIT_DELAY "text" 0).calls = 4 ∧
    (process_chunk_with_bedrock alwaysThrottleSvc RATE_LIMIT_DELAY "text" 0).calls ≠ 3 := by
  have h := throttle_trace alwaysThrottleSvc RATE_LIMIT_DELAY "text" (fun _ => rfl)
  rw [h]
  exact ⟨rfl, by decide⟩

/-- Claim C3 (amended): a unit whose calls always throttle makes exactly
`MAX_RETRIES = 3` retry attempts — 4 service invocations in total, with
the three inter-attempt delays `base*2^0, base*2^1, base*2^2` — before
surfacing `BedrockRateLimitError`, which is distinct from the other
failure kinds; in whole-document mode the unit yields the
absence-marker `none` instead of aborting. -/
theorem throttle_exhaustion_behavior (svc : String → Nat → CallOutcome) (base : Rat)
    (chunk : String)
    (h : ∀ k, svc chunk k = CallOutcome.clientError "ThrottlingException") :
    process_chunk_with_bedrock svc base chunk 0 =
      { result := Except.error InvokeError.rateLimitExhausted, calls := 1 + MAX_RETRIES,
        sleeps := [base * 2 ^ 0, base * 2 ^ 1, base * 2 ^ 2] } ∧
    (∀ code, InvokeError.rateLimitExhausted ≠ InvokeError.aws code) ∧
    (∀ msg, InvokeError.rateLimitExhausted ≠ InvokeError.other msg) ∧
    chunkOutcome svc chunk = none := by
  refine ⟨?_, fun code => by simp, fun msg => by simp, ?_⟩
  · rw [throttle_trace svc base chunk h]
    norm_num [MAX_RETRIES]
  · rw [chunkOutcome, throttle_trace svc RATE_LIMIT_DELAY chunk h]
    rfl

theorem throttle_exhaustion_behavior_witness :
    process_chunk_with_bedrock alwaysThrottleSvc 1 "para" 0 =
      { result := Except.error InvokeError.rateLimitExhausted, calls := 1 + MAX_RETRIES,
        sleeps := [1 * 2 ^ 0, 1 * 2 ^ 1, 1 * 2 ^ 2] } ∧
    (∀ code, InvokeError.rateLimitExhausted ≠ InvokeError.aws code) ∧
    (∀ msg, InvokeError.rateLimitExhausted ≠ InvokeError.other msg) ∧
    chunkOutcome alwaysThrottleSvc "para" = none :=
  throttle_exhaustion_behavior alwaysThrottleSvc 1 "para" (fun _ => rfl)

/-- Claim C4: the successive backoff delays slept by the Retrying
Invoker are exactly the first `n ≤ MAX_RETRIES` terms of
`base*2^0, base*2^1, base*2^2`, so the delay before retry `k` is
`base * 2^(k-1)`. -/
theorem backoff_delays_exponential (svc : String → Nat → CallOutcome) (base : Rat)
    (chunk : String) :
    ∃ n, n ≤ MAX_RETRIES ∧
      (process_chunk_with_bedrock svc base chunk 0).sleeps =
        (List.range n).map (fun j => base * 2 ^ j) := by
  obtain ⟨n, hb, hn⟩ := sleeps_powers_bounded svc base chunk (MAX_RETRIES + 1) 0 (by omega)
  refine ⟨n, by omega, ?_⟩
  rw [hn]
  exact List.map_congr_left (fun j _ => by rw [Nat.zero_add])

/-- Claim C5: a first call failing with a non-throttling `ClientError`
makes the invoker fail immediately — one service call, no sleeps, no
retries — propagating the error code; in whole-document mode the unit
immediately yields the absence-marker `none`. -/
theorem nonthrottle_fails_immediately (svc : String → Nat → CallOutcome) (base : Rat)
    (chunk : String) (code : String)
    (h : svc chunk 0 = CallOutcome.clientError code) (hc : code ≠ "ThrottlingException") :
    process_chunk_with_bedrock svc base chunk 0 =
      { result := Except.error (InvokeError.aws code), calls := 1, sleeps := [] } ∧
    chunkOutcome svc chunk = none := by
  refine ⟨nonthrottle_trace svc base chunk code h hc, ?_⟩
  rw [chunkOutcome, nonthrottle_trace svc RATE_LIMIT_DELAY chunk code h hc]
  rfl

theorem nonthrottle_fails_immediately_witness :
    process_chunk_with_bedrock validationSvc 1 "para" 0 =
      { result := Except.error (InvokeError.aws "ValidationException"), calls := 1,
        sleeps := [] } ∧
    chunkOutcome validationSvc "para" = none :=
  nonthrottle_fails_immediately validationSvc 1 "para" "ValidationException" rfl (by decide)

/-- Claim C6: the scheduler's batches are the consecutive slices
`content[i:i+BATCH_SIZE]` at starts `0, BATCH_SIZE, ...`: concatenated
they restore the input, each has at most `BATCH_SIZE` units, and for 12
units the batch starts are `[0, 5, 10]` covering the contiguous index
ranges `[0-4], [5-9], [10-11]`. -/
theorem batch_partition (content : List String) :
    ((batchStarts 0 content.length).map (fun i => (content.drop i).take BATCH_SIZE)).flatten
        = content ∧
    (∀ i ∈ batchStarts 0 content.length,
      ((content.drop i).take BATCH_SIZE).length ≤ BATCH_SIZE) ∧
    batchStarts 0 12 = [0, 5, 10] ∧
    (batchStarts 0 12).map (fun i => List.range' i (min BATCH_SIZE (12 - i)))
      = [[0, 1, 2, 3, 4], [5, 6, 7, 8, 9], [10, 11]] := by
  have hbs : batchStarts 0 12 = [0, 5, 10] := by
    rw [batchStarts]
    rw [batchStarts]
    rw [batchStarts]
    rw [batchStarts]
    norm_num [BATCH_SIZE]
  refine ⟨?_, ?_, hbs, ?_⟩
  · have := batch_slices_cover content.length 0 content (by omega)
    simpa using this
  · intro i _
    exact (List.length_take_le _ _)
  · rw [hbs]
    decide

theorem batch_partition_witness :
    (((List.replicate 12 "p").drop 5).take BATCH_SIZE).length ≤ BATCH_SIZE :=
  (batch_partition (List.replicate 12 "p")).2.1 5 (by
    have h12 : (List.replicate 12 "p").length = 12 := by simp
    rw [h12]
    rw [batchStarts]
    rw [batchStarts]
    rw [batchStarts]
    rw [batchStarts]
    norm_num [BATCH_SIZE])

/-- Claim C7: single-paragraph mode accepts exactly the 1-based numbers
`1..N`: number `0` and number `N+1` raise the `ValueError` naming the
bounds `1` and `N`, while number `1` on a non-empty document proceeds to
invoke the normalizer on the first paragraph. -/
theorem single_paragraph_validation (svc : String → Nat → CallOutcome)
    (content : List String) :
    process_single_paragraph svc content 0
        = SingleResult.rangeError 1 content.length (rangeErrorMessage content.length) ∧
    process_single_paragraph svc content ((content.length : Int) + 1)
        = SingleResult.rangeError 1 content.length (rangeErrorMessage content.length) ∧
    (1 ≤ content.length →
      process_single_paragraph svc content 1
        = SingleResult.processed
            (process_chunk_with_bedrock svc RATE_LIMIT_DELAY (content.getD 0 "") 0)) := by
  refine ⟨?_, ?_, ?_⟩
  · rw [process_single_paragraph]
    norm_num
  · rw [process_single_paragraph]
    norm_num
  · intro h1
    rw [process_single_paragraph]
    have hcond : ¬ (((1 : Int) - 1) < 0 ∨ (content.length : Int) ≤ ((1 : Int) - 1)) := by
      push_neg
      constructor
      · norm_num
      · norm_num
        exact_mod_cast h1
    rw [if_neg hcond]
    norm_num

theorem single_paragraph_validation_witness :
    1 ≤ (["solo"] : List String).length ∧
    process_single_paragraph demoSvc ["solo"] 1
      = SingleResult.processed
          (process_chunk_with_bedrock demoSvc RATE_LIMIT_DELAY
            ((["solo"] : List String).getD 0 "") 0) :=
  ⟨by decide, (single_paragraph_validation demoSvc ["solo"]).2.2 (by decide)⟩

/-- Claim C8: the emitted whole-document output is the concatenation, in
ascending index order, of exactly the successfully normalized texts,
each followed by a blank-line separator; units whose outcome is the
absence-marker contribute nothing. -/
theorem whole_document_emission (svc : String → Nat → CallOutcome)
    (content : List String) (orders : Nat → List Nat)
    (h : ∀ i ∈ batchStarts 0 content.length,
        (orders i).Perm (List.range (min BATCH_SIZE (content.length - i)))) :
    writeOutput (process_document svc content orders)
      = specAssemble ((List.range content.length).filterMap (docOutcome svc content)) := by
  rw [process_document_eq_canonical svc content orders h, writeOutput_eq, canonicalResults,
    List.filterMap_map]
  rfl

theorem whole_document_emission_witness :
    writeOutput (process_document demoSvc demoContent demoOrders)
      = specAssemble ((List.range demoContent.length).filterMap (docOutcome demoSvc demoContent)) :=
  whole_document_emission demoSvc demoContent demoOrders demo_orders_ok


end ProcessDoc

namespace TextToWord

/-- Claim C9: in the produced document a paragraph is bold exactly when
it has at most 10 whitespace-separated words and does not end with a
period; every paragraph gets 1.15 line spacing, and all four page
margins are 1 inch. -/
theorem paragraph_styling (text_file : String) (output_file : Option String)
    (content : String) :
    (∀ p ∈ (create_word_document text_file output_file content).2.paragraphs,
        (p.bold = true ↔ ((pyWords p.text).length ≤ 10 ∧ endsWithDot p.text = false)) ∧
        p.line_spacing = 1.15) ∧
    (create_word_document text_file output_file content).2.top_margin_in = 1 ∧
    (create_word_document text_file output_file content).2.bottom_margin_in = 1 ∧
    (create_word_document text_file output_file content).2.left_margin_in = 1 ∧
    (create_word_document text_file output_file content).2.right_margin_in = 1 := by
  refine ⟨?_, rfl, rfl, rfl, rfl⟩
  intro p hp
  simp only [create_word_document] at hp
  obtain ⟨q, _, rfl⟩ := List.mem_map.mp hp
  refine ⟨?_, rfl⟩
  simp [formatParagraph, Bool.and_eq_true, decide_eq_true_iff, Bool.not_eq_true']

theorem paragraph_styling_witness :
    ((formatParagraph "Hello World".toList).bold = true ↔
      ((pyWords (formatParagraph "Hello World".toList).text).length ≤ 10 ∧
        endsWithDot (formatParagraph "Hello World".toList).text = false)) ∧
    (formatParagraph "Hello World".toList).line_spacing = 1.15 :=
  (paragraph_styling "in.txt" none "Hello World").1 (formatParagraph "Hello World".toList)
    (List.mem_map.mpr ⟨"Hello World".toList, by decide, rfl⟩)

/-- Claim C10: with no explicit output path the document is saved to the
input path with its extension replaced by `.docx` (via `os.path.splitext`),
and the paragraphs written are exactly the non-empty stripped segments of
the input split on blank lines, in input order. -/
theorem output_path_and_paragraphs (text_file : String) (content : String) :
    (create_word_document text_file none content).1 = (pySplitext text_file).1 ++ ".docx" ∧
    (create_word_document text_file none content).2.paragraphs.map (fun p => p.text)
      = ((splitDoubleNewline content.toList).map pyStrip).filter (fun p => p ≠ []) ∧
    pySplitext "document.txt" = ("document", ".txt") ∧
    pySplitext "dir.d/noext" = ("dir.d/noext", "") ∧
    pySplitext "archive.tar.gz" = ("archive.tar", ".gz") ∧
    pySplitext ".bashrc" = (".bashrc", "") := by
  refine ⟨rfl, ?_, by decide, by decide, by decide, by decide⟩
  simp only [create_word_document, List.map_map]
  have hfun : ((fun p : ParaFormat => p.text) ∘ formatParagraph) = id := rfl
  rw [hfun, List.map_id]

end TextToWord
